import Mathlib

/-!
Verification of `update-color-tokens.py`, a batch rewriter that replaces
hard-coded hex color literals inside quoted string spans of `.tsx`/`.ts`
files with CSS design-token references.

The embedding models file contents as `List Char` (`Str`).  The Python
regex substitution

    re.sub(rf'(["\'].*?)({hex})(.*?["\'])', rf'\1{token}\3', content,
           flags=re.IGNORECASE)

is embedded by an executable left-to-right scanner with the exact
semantics of the backtracking engine on this pattern family:
the pattern starts at a quote character, the two lazy `.*?` gaps may
contain any character except a newline (quotes included), the literal is
matched case-insensitively (ASCII case rule; every pattern character is
ASCII), the closing quote class is independent of the opening one, the
replacement keeps groups 1 and 3 and substitutes the token for group 2,
and scanning resumes immediately after each match (non-overlapping).
-/

namespace UpdateColorTokens

abbrev Str := List Char

/-- The single-quote character, written via its code point so that the
source stays free of stray apostrophes. -/
def squote : Char := Char.ofNat 39

/-- Membership in the `["']` character class of the pattern. -/
def isQuote (c : Char) : Bool := c == '"' || c == squote

/-- ASCII lower-casing on code points: the effect of `re.IGNORECASE`
for the ASCII alphabet, which covers every character occurring in the
fixed hex patterns of the mapping table. -/
def lowerCode (c : Char) : Nat :=
  if 65 ≤ c.toNat ∧ c.toNat ≤ 90 then c.toNat + 32 else c.toNat

/-- Case-insensitive match of one pattern character against one subject
character. -/
def chMatchCI (p c : Char) : Bool := lowerCode p == lowerCode c

/-- Case-insensitively match the fixed literal `lit` at the front of
`l`; on success return the remaining subject. -/
def matchLitCI : Str → Str → Option Str
  | [], rest => some rest
  | _ :: _, [] => none
  | p :: ps, c :: cs => if chMatchCI p c then matchLitCI ps cs else none

/-- The lazy tail `.*?["']` of the pattern: find the earliest quote
character reachable without crossing a newline.  Returns the consumed
gap, the closing quote, and the remaining subject. -/
def findClose : Str → Option (Str × Char × Str)
  | [] => none
  | c :: cs =>
    if isQuote c then some ([], c, cs)
    else if c == '\n' then none
    else
      match findClose cs with
      | some (b, q, r) => some (c :: b, q, r)
      | none => none

/-- The part of the pattern after the opening quote: lazily extend the
first gap `.*?` (never across a newline) until the literal matches and a
closing quote is reachable behind it; backtracking continues past a
literal match whose closing quote cannot be found.  Returns the first
gap, the second gap, the closing quote, and the remaining subject. -/
def findLit (lit : Str) : Str → Option (Str × Str × Char × Str)
  | [] => none
  | c :: cs =>
    match matchLitCI lit (c :: cs) with
    | some rest =>
      match findClose rest with
      | some (b, q, r) => some ([], b, q, r)
      | none =>
        if c == '\n' then none
        else
          match findLit lit cs with
          | some (a, b, q, r) => some (c :: a, b, q, r)
          | none => none
    | none =>
      if c == '\n' then none
      else
        match findLit lit cs with
        | some (a, b, q, r) => some (c :: a, b, q, r)
        | none => none

/-- One full `re.sub` pass over the subject: scan left to right; at each
quote character attempt a match of the whole pattern; on success emit
group 1, the token, group 3 and resume after the match; otherwise copy
one character and continue.  `fuel` only bounds the recursion and is
instantiated with the subject length by `subPass`, which always
suffices. -/
def subColor (lit tok : Str) : Nat → Str → Str
  | 0, l => l
  | _ + 1, [] => []
  | fuel + 1, c :: cs =>
    if isQuote c then
      match findLit lit cs with
      | some (a, b, q, r) => c :: (a ++ tok ++ b ++ q :: subColor lit tok fuel r)
      | none => c :: subColor lit tok fuel cs
    else c :: subColor lit tok fuel cs

/-- One `re.sub` call of one mapping rule applied to a whole file content
(update-color-tokens.py lines 39-44). -/
def subPass (lit tok l : Str) : Str := subColor lit tok l.length l

/-- The mapping table `COLOR_MAPPINGS` (lines 12-26), in source order. -/
def COLOR_MAPPINGS : List (Str × Str) :=
  [( "#1e1e1e".data, "var(--color-bg-primary)".data),
   ( "#252526".data, "var(--color-bg-secondary)".data),
   ( "#2a2d2e".data, "var(--color-bg-tertiary)".data),
   ( "#3e3e42".data, "var(--color-border)".data),
   ( "#cccccc".data, "var(--color-text-primary)".data),
   ( "#858585".data, "var(--color-text-muted)".data),
   ( "#808080".data, "var(--color-text-muted)".data),
   ( "#aaaaaa".data, "var(--color-text-secondary)".data),
   ( "#007acc".data, "var(--color-accent-green)".data),
   ( "#0e639c".data, "var(--color-accent-green)".data),
   ( "#4fc1ff".data, "var(--color-accent-teal)".data),
   ( "#ffa726".data, "var(--color-accent-yellow)".data),
   ( "#f14c4c".data, "var(--color-accent-coral)".data)]

/-- Applying every mapping rule, in table order, to one content buffer:
the loop body of `process_file` (lines 37-44). -/
def applyMappings (content : Str) : Str :=
  COLOR_MAPPINGS.foldl (fun acc m => subPass m.1 m.2 acc) content

/-!  The filesystem / driver model.

A candidate file is modelled by its path segments relative to the root
directory (`dirs` then filename), its readable content (`none` when the
read raises), and whether a write to it would succeed.  `errMsg` is the
message of the exception the file would raise on a failing read or
write. -/

/-- CPython `PurePath.suffix`: the part of the filename from the last
dot on, empty when the last dot is the first character, the last
character, or absent. -/
def pathSuffix (name : Str) : Str :=
  match name.reverse.findIdx? (fun c => c == '.') with
  | some j =>
    let i := name.length - 1 - j
    if 0 < i ∧ i < name.length - 1 then name.drop i else []
  | none => []

/-- The fnmatch test for the two glob patterns of the source, `*.tsx` and
`*.ts`: the filename matches exactly when it ends with the literal
suffix (the star matches any run of characters, dots included). -/
def globTail (suf name : Str) : Bool :=
  name.drop (name.length - suf.length) == suf

structure SrcFile where
  dirs : List Str
  fname : Str
  content : Option Str
  writeOk : Bool
  errMsg : Str
deriving DecidableEq

/-- The `file_path.parts` tuple, restricted to the segments below the root
directory (the fixed root `assemble.ai/src/components/cost-plan`
contributes no `.next` or `node_modules` segment). -/
def parts (f : SrcFile) : List Str := f.dirs ++ [f.fname]

/-- The path `file_path.relative_to(base_dir)` rendered as a string. -/
def relPath (f : SrcFile) : Str := List.intercalate ("/".data) (parts f)

/-- The string `str(file_path)`: the absolute path printed by the per-file error
diagnostic. -/
def fullPath (base : Str) (f : SrcFile) : Str := base ++ "/".data ++ relPath f

/-- The diagnostic printed by the except-branch of `process_file`
(line 53). -/
def errLine (base : Str) (f : SrcFile) : Str :=
  "Error processing ".data ++ fullPath base f ++ ": ".data ++ f.errMsg

/-- The per-updated-file log line of `main` (lines 76 and 88). -/
def updLine (f : SrcFile) : Str := "Updated: ".data ++ relPath f

/-- Result of one `process_file` call: its return value, the number of
completed disk writes, and the lines it printed. -/
structure ProcOut where
  updated : Bool
  writes : Nat
  printed : List Str
deriving DecidableEq

/-- The function `process_file` (lines 28-54): read, apply every mapping, write back
exactly when the content changed, print and return False when the read
or the write raises. -/
def processFile (base : Str) (f : SrcFile) : ProcOut :=
  match f.content with
  | none => ⟨false, 0, [errLine base f]⟩
  | some content =>
    let newContent := applyMappings content
    if newContent ≠ content then
      if f.writeOk then ⟨true, 1, []⟩
      else ⟨false, 0, [errLine base f]⟩
    else ⟨false, 0, []⟩

/-- The run-level counters and console transcript of `main`. -/
structure RunState where
  processed : Nat
  updated : Nat
  output : List Str
deriving DecidableEq

def initState : RunState := ⟨0, 0, []⟩

/-- One iteration of the per-file loop of `main` (lines 73-76 and
85-88): count the file, process it, and on an update count it and log
its relative path. -/
def stepFile (base : Str) (s : RunState) (f : SrcFile) : RunState :=
  let p := processFile base f
  if p.updated then
    ⟨s.processed + 1, s.updated + 1, s.output ++ p.printed ++ [updLine f]⟩
  else
    ⟨s.processed + 1, s.updated, s.output ++ p.printed⟩

def runFiles (base : Str) (fs : List SrcFile) (s : RunState) : RunState :=
  fs.foldl (stepFile base) s

def dotNextSeg : Str := ".next".data

def nodeModulesSeg : Str := "node_modules".data

/-- The skip test of the first pass (line 70): any `.next` or
`node_modules` path segment. -/
def tsxSkip (f : SrcFile) : Bool :=
  (parts f).contains dotNextSeg || (parts f).contains nodeModulesSeg

/-- The skip test of the second pass (lines 80-82): additionally a
filename whose `Path.suffix` equals the string `.d.ts`. -/
def tsSkip (f : SrcFile) : Bool :=
  (parts f).contains dotNextSeg || (parts f).contains nodeModulesSeg ||
    pathSuffix f.fname == ".d.ts".data

/-- The files visited and counted by the `*.tsx` pass: enumeration by
glob, then the in-loop `continue` filter. -/
def tsxPass (tree : List SrcFile) : List SrcFile :=
  (tree.filter (fun f => globTail (".tsx".data) f.fname)).filter (fun f => !tsxSkip f)

/-- The files visited and counted by the `*.ts` pass. -/
def tsPass (tree : List SrcFile) : List SrcFile :=
  (tree.filter (fun f => globTail (".ts".data) f.fname)).filter (fun f => !tsSkip f)

def dirErrLine (base : Str) : Str := "Error: Directory not found: ".data ++ base

def doneLine : Str := "\n✓ Processing complete!".data

def processedLine (n : Nat) : Str := "  Files processed: ".data ++ (Nat.repr n).data

def updatedCountLine (n : Nat) : Str := "  Files updated: ".data ++ (Nat.repr n).data

/-- The counters and transcript after both passes. -/
def finalState (base : Str) (tree : List SrcFile) : RunState :=
  runFiles base (tsPass tree) (runFiles base (tsxPass tree) initState)

/-- The function `main` (lines 56-92): the full console transcript of one run.
`rootEx` is whether the root directory exists; `tree` is the recursive
listing of the files under it. -/
def mainRun (rootEx : Bool) (base : Str) (tree : List SrcFile) : List Str :=
  if rootEx then
    let s := finalState base tree
    s.output ++ [doneLine, processedLine s.processed, updatedCountLine s.updated]
  else
    [dirErrLine base]

/-!  Derived notions used by the statements and proofs. -/

/-- Whether the fixed literal occurs, ASCII-case-insensitively, anywhere
in the subject. -/
def occursCI (lit : Str) : Str → Bool
  | [] => (matchLitCI lit []).isSome
  | c :: cs => (matchLitCI lit (c :: cs)).isSome || occursCI lit cs

/-- A run of characters containing no quote and no newline. -/
def noQnl (l : Str) : Bool := l.all (fun c => !isQuote c && !(c == '\n'))

/-- A run of span-interior characters: no hash, no quote, no newline. -/
def plainChunk (l : Str) : Bool :=
  l.all (fun c => !(c == '#') && !isQuote c && !(c == '\n'))

def updHeader : Str := "Updated: ".data

/-- Whether a console line is an `Updated:` log line. -/
def isUpdLine (l : Str) : Bool := l.take 9 == updHeader

/-- All lines the run prints on account of one file: the diagnostics of
`process_file` followed by the `Updated:` line of `main` when the file
was updated. -/
def fileLines (base : Str) (f : SrcFile) : List Str :=
  (processFile base f).printed ++
    (if (processFile base f).updated then [updLine f] else [])

def emitted (base : Str) : List SrcFile → List Str
  | [] => []
  | f :: fs => fileLines base f ++ emitted base fs

/-- The number of files of a pass that `process_file` reports updated. -/
def updCount (base : Str) (fs : List SrcFile) : Nat :=
  (fs.filter (fun f => (processFile base f).updated)).length

/-- The file raises an I/O or decoding failure during processing:
either the read raises, or the content changes and the write-back
raises. -/
def ioFails (f : SrcFile) : Prop :=
  f.content = none ∨
    ∃ c, f.content = some c ∧ applyMappings c ≠ c ∧ f.writeOk = false

/-!  Concrete inputs used by counterexamples and witnesses. -/

def demoBase : Str := "/repo".data

/-- A declarations-convention file with a mapped literal inside
(claim 1 / spec Scenario D). -/
def dtsFile : SrcFile :=
  ⟨[], "types.d.ts".data, some ("\"#1e1e1e\"".data), true, []⟩

/-- A literal sitting between two quoted spans, outside both
(claim 2). -/
def outsideSpanContent : Str := "\"a\" #1e1e1e \"b\"".data

def quoteFreeContent : Str := "- #1e1e1e -".data

def upperContent : Str := "\"#1E1E1E\"".data

def missingDigitContent : Str := "\"#1e1e1\"".data

def extraDigitContent : Str := "\"#1e1e1e0\"".data

/-- One quoted span holding the same literal twice (claims 4 and 9). -/
def twiceContent : Str := "\"#1e1e1e #1e1e1e\"".data

def onceContent : Str := "\"#1e1e1e\"".data

/-- A changed file whose write-back raises (claim 5). -/
def wfailFile : SrcFile :=
  ⟨[], "a.tsx".data, some ("\"#1e1e1e\"".data), false, "disk full".data⟩

/-- A readable, writable file with one mapped literal (claims 5, 6, 8). -/
def goodFile : SrcFile :=
  ⟨[], "b.tsx".data, some ("\"#252526\"".data), true, []⟩

/-- A file whose read raises (claim 6). -/
def readFailFile : SrcFile :=
  ⟨[], "c.tsx".data, none, true, "bad utf-8".data⟩

/-- A second readable, writable file with a mapped literal (claim 8). -/
def goodFile2 : SrcFile :=
  ⟨[], "d.ts".data, some ("\"#cccccc\"".data), true, []⟩

def spanChunkU : Str := "bg-[".data

def spanChunkV : Str := "] x [".data

def spanChunkW : Str := "]".data

/-- A two-file tree for the claim 10 witness. -/
def mixedTree : List SrcFile := [goodFile, goodFile2]

/-!  Toolbox lemmas about the substitution core. -/

lemma char_eq_of_toNat_eq {c d : Char} (h : c.toNat = d.toNat) : c = d := by
  have h2 := congrArg Char.ofNat h
  rwa [Char.ofNat_toNat, Char.ofNat_toNat] at h2

lemma lowerCode_eq_low {c : Char} {n : Nat} (hn : n < 65)
    (h : lowerCode c = n) : c.toNat = n := by
  unfold lowerCode at h
  split at h
  · omega
  · exact h

lemma chMatchCI_hash {c : Char} (h : chMatchCI '#' c = true) : c = '#' := by
  have h2 : lowerCode '#' = lowerCode c := by
    simpa [chMatchCI] using h
  have h35 : lowerCode '#' = 35 := by decide
  have h36 : Char.toNat '#' = 35 := by decide
  refine char_eq_of_toNat_eq ?_
  rw [h36]
  exact lowerCode_eq_low (by omega) (h35 ▸ h2).symm

lemma chMatchCI_hash_false {c : Char} (h : c ≠ '#') :
    chMatchCI '#' c = false := by
  cases hm : chMatchCI '#' c
  · rfl
  · exact absurd (chMatchCI_hash hm) h

lemma matchLitCI_self (lit rest : Str) :
    matchLitCI lit (lit ++ rest) = some rest := by
  induction lit with
  | nil => rfl
  | cons p ps ih => simp [matchLitCI, chMatchCI, ih]

lemma matchLitCI_struct {lit l rest : Str} (h : matchLitCI lit l = some rest) :
    ∃ m, l = m ++ rest ∧ m.length = lit.length := by
  induction lit generalizing l with
  | nil =>
    refine ⟨[], ?_, rfl⟩
    simpa [matchLitCI] using h
  | cons p ps ih =>
    match l with
    | [] => exact absurd h (by simp [matchLitCI])
    | c :: cs =>
      rw [matchLitCI] at h
      split at h
      · obtain ⟨m, hm, hlen⟩ := ih h
        exact ⟨c :: m, by simp [hm], by simp [hlen]⟩
      · exact absurd h (by simp)

lemma matchLitCI_hash_head {p : Str} {c : Char} {cs : Str} (h : c ≠ '#') :
    matchLitCI ('#' :: p) (c :: cs) = none := by
  simp [matchLitCI, chMatchCI_hash_false h]

lemma matchLitCI_second {d : Char} {p rest : Str}
    (h : chMatchCI d '1' = false) :
    matchLitCI ('#' :: d :: p) ('#' :: '1' :: rest) = none := by
  simp [matchLitCI, h]

lemma findClose_struct {l b r : Str} {q : Char}
    (h : findClose l = some (b, q, r)) : l = b ++ q :: r := by
  induction l generalizing b with
  | nil => exact absurd h (by simp [findClose])
  | cons c cs ih =>
    rw [findClose] at h
    split at h
    · obtain ⟨h1, h2, h3⟩ := by simpa using h
      simp [h1, h2, h3]
    · split at h
      · exact absurd h (by simp)
      · cases hf : findClose cs with
        | none => rw [hf] at h; exact absurd h (by simp)
        | some t =>
          obtain ⟨b', q', r'⟩ := t
          rw [hf] at h
          obtain ⟨h1, h2, h3⟩ := by simpa using h
          subst h1 h2 h3
          simpa using ih hf

lemma findClose_quote {q : Char} (rest : Str) (hq : isQuote q = true) :
    findClose (q :: rest) = some ([], q, rest) := by
  simp [findClose, hq]

lemma findClose_skip {x rest b r : Str} {q : Char} (hx : noQnl x = true)
    (h : findClose rest = some (b, q, r)) :
    findClose (x ++ rest) = some (x ++ b, q, r) := by
  induction x with
  | nil => simpa using h
  | cons c xs ih =>
    rw [noQnl, List.all_cons, Bool.and_eq_true] at hx
    obtain ⟨hhead, hrest⟩ := hx
    rw [Bool.and_eq_true, Bool.not_eq_true' , Bool.not_eq_true' ] at hhead
    obtain ⟨hq1, hn1⟩ := hhead
    have h2 := ih hrest
    simp [findClose, hq1, hn1, h2]

lemma findLit_struct {lit l a b r : Str} {q : Char}
    (h : findLit lit l = some (a, b, q, r)) :
    ∃ m, l = a ++ m ++ b ++ q :: r ∧ m.length = lit.length := by
  induction l generalizing a with
  | nil => exact absurd h (by simp [findLit])
  | cons c cs ih =>
    cases hm : matchLitCI lit (c :: cs) with
    | some rest =>
      cases hf : findClose rest with
      | some t =>
        obtain ⟨b', q', r'⟩ := t
        rw [findLit] at h
        simp only [hm, hf, Option.some.injEq, Prod.mk.injEq] at h
        obtain ⟨h1, h2, h3, h4⟩ := h
        subst h1 h2 h3 h4
        obtain ⟨m, hm2, hlen⟩ := matchLitCI_struct hm
        refine ⟨m, ?_, hlen⟩
        rw [hm2, findClose_struct hf]
        simp
      | none =>
        cases hg : findLit lit cs with
        | none =>
          rw [findLit] at h
          simp only [hm, hf, hg] at h
          split at h <;> simp at h
        | some t =>
          obtain ⟨a', b', q', r'⟩ := t
          rw [findLit] at h
          simp only [hm, hf, hg] at h
          split at h
          · simp at h
          · simp only [Option.some.injEq, Prod.mk.injEq] at h
            obtain ⟨h1, h2, h3, h4⟩ := h
            subst h1 h2 h3 h4
            obtain ⟨m, hm2, hlen⟩ := ih hg
            exact ⟨m, by simp [hm2], hlen⟩
    | none =>
      cases hg : findLit lit cs with
      | none =>
        rw [findLit] at h
        simp only [hm, hg] at h
        split at h <;> simp at h
      | some t =>
        obtain ⟨a', b', q', r'⟩ := t
        rw [findLit] at h
        simp only [hm, hg] at h
        split at h
        · simp at h
        · simp only [Option.some.injEq, Prod.mk.injEq] at h
          obtain ⟨h1, h2, h3, h4⟩ := h
          subst h1 h2 h3 h4
          obtain ⟨m, hm2, hlen⟩ := ih hg
          exact ⟨m, by simp [hm2], hlen⟩

lemma subColor_nil (lit tok : Str) (fuel : Nat) :
    subColor lit tok fuel [] = [] := by
  cases fuel <;> rfl

lemma occursCI_cons (lit : Str) (c : Char) (cs : Str) :
    occursCI lit (c :: cs) =
      ((matchLitCI lit (c :: cs)).isSome || occursCI lit cs) := rfl

lemma findLit_none_of_not_occurs {lit l : Str} (h : occursCI lit l = false) :
    findLit lit l = none := by
  induction l with
  | nil => rfl
  | cons c cs ih =>
    rw [occursCI_cons, Bool.or_eq_false_iff] at h
    obtain ⟨h1, h2⟩ := h
    have hm : matchLitCI lit (c :: cs) = none := by
      cases hx : matchLitCI lit (c :: cs)
      · rfl
      · rw [hx] at h1; simp at h1
    rw [findLit]
    simp only [hm, ih h2]
    split <;> rfl

lemma subColor_id_of_not_occurs {lit : Str} (tok : Str) :
    ∀ (fuel : Nat) (l : Str), occursCI lit l = false →
      subColor lit tok fuel l = l := by
  intro fuel
  induction fuel with
  | zero => intro l _; rfl
  | succ n ih =>
    intro l h
    cases l with
    | nil => rfl
    | cons c cs =>
      rw [occursCI_cons, Bool.or_eq_false_iff] at h
      obtain ⟨_, h2⟩ := h
      rw [subColor]
      by_cases hq : isQuote c
      · rw [if_pos hq, findLit_none_of_not_occurs h2, ih cs h2]
      · rw [if_neg hq, ih cs h2]

lemma subPass_id_of_not_occurs {lit : Str} (tok : Str) {l : Str}
    (h : occursCI lit l = false) : subPass lit tok l = l :=
  subColor_id_of_not_occurs tok l.length l h

lemma foldl_subPass_id {ms : List (Str × Str)} {c : Str}
    (h : ∀ m ∈ ms, occursCI m.1 c = false) :
    ms.foldl (fun acc m => subPass m.1 m.2 acc) c = c := by
  induction ms with
  | nil => rfl
  | cons m ms ih =>
    rw [List.foldl_cons]
    rw [subPass_id_of_not_occurs m.2 (h m (by simp))]
    exact ih (fun m' hm' => h m' (by simp [hm']))

lemma applyMappings_id_of_not_occurs {c : Str}
    (h : ∀ m ∈ COLOR_MAPPINGS, occursCI m.1 c = false) :
    applyMappings c = c :=
  foldl_subPass_id h

lemma subColor_id_of_no_quote {lit : Str} (tok : Str) :
    ∀ (fuel : Nat) (l : Str), (l.all fun c => !isQuote c) = true →
      subColor lit tok fuel l = l := by
  intro fuel
  induction fuel with
  | zero => intro l _; rfl
  | succ n ih =>
    intro l h
    cases l with
    | nil => rfl
    | cons c cs =>
      rw [List.all_cons, Bool.and_eq_true, Bool.not_eq_true' ] at h
      obtain ⟨h1, h2⟩ := h
      rw [subColor, if_neg (by simp [h1]), ih cs h2]

lemma foldl_subPass_id_of_no_quote {ms : List (Str × Str)} {c : Str}
    (h : (c.all fun ch => !isQuote ch) = true) :
    ms.foldl (fun acc m => subPass m.1 m.2 acc) c = c := by
  induction ms with
  | nil => rfl
  | cons m ms ih =>
    rw [List.foldl_cons, subPass, subColor_id_of_no_quote m.2 c.length c h]
    exact ih

lemma plainChunk_no_hash {x : Str} (h : plainChunk x = true) :
    (x.all fun c => !(c == '#')) = true := by
  rw [List.all_eq_true]
  intro c hc
  rw [plainChunk, List.all_eq_true] at h
  have h2 := h c hc
  simp only [Bool.and_eq_true] at h2
  exact h2.1.1

lemma plainChunk_noQnl {x : Str} (h : plainChunk x = true) :
    noQnl x = true := by
  rw [noQnl, List.all_eq_true]
  intro c hc
  rw [plainChunk, List.all_eq_true] at h
  have h2 := h c hc
  simp only [Bool.and_eq_true] at h2
  simp only [Bool.and_eq_true]
  exact ⟨h2.1.2, h2.2⟩

lemma quote_no_hash {c : Char} (h : isQuote c = true) : (c == '#') = false := by
  rw [isQuote, Bool.or_eq_true] at h
  rcases h with h | h
  · have h2 : c = '"' := by simpa using h
    subst h2; decide
  · have h2 : c = squote := by simpa using h
    subst h2; decide

lemma findLit_skip {lit' x l a b r : Str} {q : Char}
    (hx : plainChunk x = true)
    (h : findLit ('#' :: lit') l = some (a, b, q, r)) :
    findLit ('#' :: lit') (x ++ l) = some (x ++ a, b, q, r) := by
  induction x with
  | nil => simpa using h
  | cons c xs ih =>
    rw [plainChunk, List.all_cons, Bool.and_eq_true] at hx
    obtain ⟨hhead, hrest⟩ := hx
    rw [Bool.and_eq_true, Bool.and_eq_true] at hhead
    obtain ⟨⟨hh, _⟩, hn⟩ := hhead
    have hne : c ≠ '#' := by simpa using hh
    have hn2 : (c == '\n') = false := by simpa using hn
    have h2 := ih hrest
    rw [List.cons_append, findLit]
    simp only [matchLitCI_hash_head hne, hn2, Bool.false_eq_true, if_false, h2]
    simp

lemma findLit_hit {rest b r : Str} {q : Char} (p : Char) (ps : Str)
    (h : findClose rest = some (b, q, r)) :
    findLit (p :: ps) ((p :: ps) ++ rest) = some ([], b, q, r) := by
  have hm := matchLitCI_self (p :: ps) rest
  rw [List.cons_append] at hm
  rw [List.cons_append, findLit]
  simp only [hm, h]

lemma occursCI_skip_hash {p' x l : Str}
    (hx : (x.all fun c => !(c == '#')) = true) :
    occursCI ('#' :: p') (x ++ l) = occursCI ('#' :: p') l := by
  induction x with
  | nil => rfl
  | cons c xs ih =>
    rw [List.all_cons, Bool.and_eq_true, Bool.not_eq_true' ] at hx
    obtain ⟨h1, h2⟩ := hx
    have hne : c ≠ '#' := by simpa using h1
    rw [List.cons_append, occursCI_cons, matchLitCI_hash_head hne]
    simp [ih h2]

lemma occursCI_none_of_no_hash {p' l : Str}
    (hl : (l.all fun c => !(c == '#')) = true) :
    occursCI ('#' :: p') l = false := by
  induction l with
  | nil => rfl
  | cons c cs ih =>
    rw [List.all_cons, Bool.and_eq_true, Bool.not_eq_true' ] at hl
    obtain ⟨h1, h2⟩ := hl
    have hne : c ≠ '#' := by simpa using h1
    rw [occursCI_cons, matchLitCI_hash_head hne]
    simp [ih h2]

lemma subPass_span (tok : Str) {u v w : Str} {q1 q2 : Char}
    (hu : plainChunk u = true) (hv : plainChunk v = true)
    (hw : plainChunk w = true)
    (hq1 : isQuote q1 = true) (hq2 : isQuote q2 = true) :
    subPass ('#' :: "1e1e1e".data) tok
        (q1 :: (u ++ (('#' :: "1e1e1e".data) ++
          (v ++ (('#' :: "1e1e1e".data) ++ (w ++ [q2]))))))
      = q1 :: (u ++ (tok ++ (v ++ (('#' :: "1e1e1e".data) ++ (w ++ [q2]))))) := by
  have hc1 : findClose (w ++ [q2]) = some (w, q2, []) := by
    have h2 := findClose_skip (plainChunk_noQnl hw) (findClose_quote [] hq2)
    simpa using h2
  have hc2 : findClose (('#' :: "1e1e1e".data) ++ (w ++ [q2]))
      = some (('#' :: "1e1e1e".data) ++ w, q2, []) :=
    findClose_skip (by decide) hc1
  have hc3 : findClose (v ++ (('#' :: "1e1e1e".data) ++ (w ++ [q2])))
      = some (v ++ (('#' :: "1e1e1e".data) ++ w), q2, []) :=
    findClose_skip (plainChunk_noQnl hv) hc2
  have hl1 := findLit_hit '#' ("1e1e1e".data) hc3
  have hl2 := findLit_skip hu hl1
  rw [List.append_nil] at hl2
  rw [subPass, List.length_cons]
  rw [subColor]
  rw [if_pos hq1]
  simp only [hl2]
  rw [subColor_nil]
  simp [List.append_assoc]

lemma occursCI_other {d : Char} {p2 : Str} (hd : chMatchCI d '1' = false)
    {u v w : Str} {q1 q2 : Char} (tok : Str)
    (htok : (tok.all fun c => !(c == '#')) = true)
    (hu : plainChunk u = true) (hv : plainChunk v = true)
    (hw : plainChunk w = true)
    (hq1 : isQuote q1 = true) (hq2 : isQuote q2 = true) :
    occursCI ('#' :: d :: p2)
        (q1 :: (u ++ (tok ++ (v ++ (('#' :: "1e1e1e".data) ++ (w ++ [q2]))))))
      = false := by
  rw [show (("1e1e1e".data : Str)) = '1' :: "e1e1e".data from rfl]
  have hq1ne : q1 ≠ '#' := by simpa using quote_no_hash hq1
  rw [occursCI_cons, matchLitCI_hash_head hq1ne]
  simp only [Option.isSome_none, Bool.false_or]
  rw [occursCI_skip_hash (plainChunk_no_hash hu)]
  rw [occursCI_skip_hash htok]
  rw [occursCI_skip_hash (plainChunk_no_hash hv)]
  rw [List.cons_append, List.cons_append]
  rw [occursCI_cons, matchLitCI_second hd]
  have hx : (("e1e1e".data).all fun c => !(c == '#')) = true := by decide
  have h1 : (('1' == '#') : Bool) = false := by decide
  have hall : ((('1' :: ("e1e1e".data ++ (w ++ [q2]))).all
      fun c => !(c == '#')) = true) := by
    simp [List.all_cons, List.all_append, hx, h1, plainChunk_no_hash hw,
      quote_no_hash hq2]
  simpa using occursCI_none_of_no_hash hall

/-!  Toolbox lemmas about the driver. -/

lemma stepFile_processed (base : Str) (s : RunState) (f : SrcFile) :
    (stepFile base s f).processed = s.processed + 1 := by
  by_cases h : (processFile base f).updated <;> simp [stepFile, h]

lemma stepFile_updated (base : Str) (s : RunState) (f : SrcFile) :
    (stepFile base s f).updated =
      s.updated + (if (processFile base f).updated then 1 else 0) := by
  by_cases h : (processFile base f).updated <;> simp [stepFile, h]

lemma stepFile_output (base : Str) (s : RunState) (f : SrcFile) :
    (stepFile base s f).output = s.output ++ fileLines base f := by
  by_cases h : (processFile base f).updated <;>
    simp [stepFile, fileLines, h, List.append_assoc]

lemma runFiles_cons (base : Str) (f : SrcFile) (fs : List SrcFile)
    (s : RunState) :
    runFiles base (f :: fs) s = runFiles base fs (stepFile base s f) := rfl

lemma runFiles_processed (base : Str) (fs : List SrcFile) (s : RunState) :
    (runFiles base fs s).processed = s.processed + fs.length := by
  induction fs generalizing s with
  | nil => simp [runFiles]
  | cons f fs ih =>
    rw [runFiles_cons, ih, stepFile_processed, List.length_cons]
    omega

lemma updCount_cons (base : Str) (f : SrcFile) (fs : List SrcFile) :
    updCount base (f :: fs) =
      (if (processFile base f).updated then 1 else 0) + updCount base fs := by
  by_cases h : (processFile base f).updated <;>
    simp [updCount, List.filter_cons, h, Nat.add_comm]

lemma updCount_append (base : Str) (l1 l2 : List SrcFile) :
    updCount base (l1 ++ l2) = updCount base l1 + updCount base l2 := by
  simp [updCount, List.filter_append]

lemma runFiles_updated (base : Str) (fs : List SrcFile) (s : RunState) :
    (runFiles base fs s).updated = s.updated + updCount base fs := by
  induction fs generalizing s with
  | nil => simp [runFiles, updCount]
  | cons f fs ih =>
    rw [runFiles_cons, ih, stepFile_updated, updCount_cons]
    omega

lemma emitted_append (base : Str) (l1 l2 : List SrcFile) :
    emitted base (l1 ++ l2) = emitted base l1 ++ emitted base l2 := by
  induction l1 with
  | nil => rfl
  | cons f fs ih => simp [emitted, ih, List.append_assoc]

lemma runFiles_output (base : Str) (fs : List SrcFile) (s : RunState) :
    (runFiles base fs s).output = s.output ++ emitted base fs := by
  induction fs generalizing s with
  | nil => simp [runFiles, emitted]
  | cons f fs ih =>
    rw [runFiles_cons, ih, stepFile_output, emitted]
    simp [List.append_assoc]

lemma processFile_printed (base : Str) (f : SrcFile) :
    (processFile base f).printed = [] ∨
      (processFile base f).printed = [errLine base f] := by
  cases hc : f.content with
  | none => right; simp [processFile, hc]
  | some c =>
    by_cases h1 : applyMappings c ≠ c
    · by_cases h2 : f.writeOk
      · left; simp [processFile, hc, h1, h2]
      · right; simp [processFile, hc, h1, h2]
    · left; simp [processFile, hc, h1]

lemma processFile_fail {f : SrcFile} (base : Str) (h : ioFails f) :
    processFile base f = ⟨false, 0, [errLine base f]⟩ := by
  rcases h with h | ⟨c, hc, hne, hw⟩
  · simp [processFile, h]
  · simp [processFile, hc, hne, hw]

lemma take1_append {A : Str} (b : Str) (hA : 1 ≤ A.length) :
    (A ++ b).take 1 = A.take 1 :=
  List.take_append_of_le_length hA

lemma ne_of_take1 {x y : Str} (h : x.take 1 ≠ y.take 1) : x ≠ y :=
  fun he => h (by rw [he])

lemma isUpdLine_updLine (f : SrcFile) : isUpdLine (updLine f) = true := by
  rw [isUpdLine, updLine]
  rw [show (9 : Nat) = ("Updated: ".data).length from rfl, List.take_left]
  rfl

lemma isUpdLine_errLine (base : Str) (f : SrcFile) :
    isUpdLine (errLine base f) = false := by
  rw [isUpdLine, errLine]
  rw [List.append_assoc, List.append_assoc]
  rw [List.take_append_of_le_length (by decide)]
  decide

lemma isUpdLine_doneLine : isUpdLine doneLine = false := by decide

lemma isUpdLine_processedLine (n : Nat) :
    isUpdLine (processedLine n) = false := by
  rw [isUpdLine, processedLine]
  rw [List.take_append_of_le_length (by decide)]
  decide

lemma isUpdLine_updatedCountLine (n : Nat) :
    isUpdLine (updatedCountLine n) = false := by
  rw [isUpdLine, updatedCountLine]
  rw [List.take_append_of_le_length (by decide)]
  decide

lemma filter_fileLines (base : Str) (f : SrcFile) :
    (fileLines base f).filter isUpdLine =
      if (processFile base f).updated then [updLine f] else [] := by
  rw [fileLines, List.filter_append]
  rcases processFile_printed base f with h | h <;> rw [h] <;>
    by_cases hu : (processFile base f).updated <;>
      simp [hu, isUpdLine_updLine, isUpdLine_errLine]

lemma filter_emitted (base : Str) (fs : List SrcFile) :
    (emitted base fs).filter isUpdLine =
      (fs.filter (fun f => (processFile base f).updated)).map updLine := by
  induction fs with
  | nil => rfl
  | cons f fs ih =>
    rw [emitted, List.filter_append, filter_fileLines, ih, List.filter_cons]
    by_cases hu : (processFile base f).updated <;> simp [hu]

/-!  The claims. -/

/-- C1: the claim (and the source comment on lines 79-82) says a file
named with the `.d.ts` double-suffix convention is skipped by the second
pass.  The code tests `file_path.suffix == '.d.ts'`, but `Path.suffix`
of any name ending in `.d.ts` is `.ts` (the part from the last dot), so
the test never fires.  Evaluating the embedded code on a `.d.ts` file
holding a mapped literal: it is enumerated by the `*.ts` pass, not
skipped, counted in both counters, and rewritten (one completed
write). -/
theorem c1_dts_convention_not_skipped : ∀ base : Str,
    pathSuffix ("types.d.ts".data) = ".ts".data
    ∧ tsSkip dtsFile = false
    ∧ tsPass [dtsFile] = [dtsFile]
    ∧ (finalState base [dtsFile]).processed = 1
    ∧ (finalState base [dtsFile]).updated = 1
    ∧ (processFile base dtsFile).updated = true
    ∧ (processFile base dtsFile).writes = 1 := by
  intro base
  exact ⟨by decide, by decide, by decide, rfl, rfl, rfl, rfl⟩

/-- C2 counterexample: in `"a" #1e1e1e "b"` the mapped literal lies
outside both quoted spans — between the closing quote of the first span
and the opening quote of the second — yet a run replaces it, because
the pattern only needs some quote somewhere before the literal and some
quote somewhere after it on the line. -/
theorem c2_outside_span_replaced :
    applyMappings outsideSpanContent
        = "\"a\" var(--color-bg-primary) \"b\"".data
    ∧ applyMappings outsideSpanContent ≠ outsideSpanContent :=
  ⟨by decide, by decide⟩

/-- C2 (amended): a literal is replaced only when a quote character
occurs before it and a quote character occurs after it on its line; the
two quotes need not match each other and need not delimit one quoted
span containing the literal.  In particular content containing no quote
character at all — a bare expression or comment in quote-free text — is
never modified. -/
theorem c2_quote_free_content_preserved (c : Str)
    (h : (c.all fun ch => !isQuote ch) = true) : applyMappings c = c :=
  foldl_subPass_id_of_no_quote h

theorem c2_quote_free_content_preserved_witness :
    ((quoteFreeContent.all fun ch => !isQuote ch) = true)
    ∧ applyMappings quoteFreeContent = quoteFreeContent :=
  ⟨by decide, c2_quote_free_content_preserved quoteFreeContent (by decide)⟩

/-- C3 counterexample: the claim says a quoted literal with an extra
hex digit is never replaced in whole or in part; but the pattern has no
boundary assertion, so the six-digit prefix of `#1e1e1e0` is replaced
and the trailing digit survives. -/
theorem c3_extra_digit_replaced_in_part :
    applyMappings extraDigitContent = "\"var(--color-bg-primary)0\"".data
    ∧ applyMappings extraDigitContent ≠ extraDigitContent :=
  ⟨by decide, by decide⟩

/-- C3 (amended): matching is case-insensitive (`#1E1E1E` in quotes is
replaced); a quoted occurrence missing a digit (`#1e1e1`) is not
replaced; but a quoted occurrence with an extra trailing hex digit
(`#1e1e1e0`) is replaced in part — its first six digits become the
token and the extra digit is left in place. -/
theorem c3_exact_match_behavior :
    applyMappings upperContent = "\"var(--color-bg-primary)\"".data
    ∧ applyMappings missingDigitContent = missingDigitContent
    ∧ applyMappings extraDigitContent = "\"var(--color-bg-primary)0\"".data :=
  ⟨by decide, by decide, by decide⟩

/-- C4 counterexample: the transformation is not idempotent.  On
`"#1e1e1e #1e1e1e"` the first run's match consumes the quoted span up
to its closing quote, so the second occurrence survives; the second run
then replaces it, changing the content again (a second run over such a
tree reports an additional update). -/
theorem c4_not_idempotent :
    applyMappings twiceContent
        = "\"var(--color-bg-primary) #1e1e1e\"".data
    ∧ applyMappings (applyMappings twiceContent)
        = "\"var(--color-bg-primary) var(--color-bg-primary)\"".data
    ∧ applyMappings (applyMappings twiceContent) ≠ applyMappings twiceContent :=
  ⟨by decide, by decide, by decide⟩

/-- C4 (amended): a second application can change the content again
(see the counterexample), so the transformation is not idempotent; a
second application does leave the content unchanged whenever the first
rewrite's result contains no case-insensitive occurrence of any mapped
hex literal.  This condition is sufficient, not necessary: quote-free
content is also left fixed even when a literal occurs in it. -/
theorem c4_idempotent_when_exhausted (c : Str)
    (h : ∀ m ∈ COLOR_MAPPINGS, occursCI m.1 (applyMappings c) = false) :
    applyMappings (applyMappings c) = applyMappings c :=
  applyMappings_id_of_not_occurs h

theorem c4_idempotent_when_exhausted_witness :
    (∀ m ∈ COLOR_MAPPINGS, occursCI m.1 (applyMappings onceContent) = false)
    ∧ applyMappings (applyMappings onceContent) = applyMappings onceContent :=
  ⟨by decide, c4_idempotent_when_exhausted onceContent (by decide)⟩

/-- C5 counterexample: a successfully read file whose content changes
but whose write-back raises: `process_file` catches the exception and
returns False, so the file is not counted as updated even though the
rewritten content differs from the original — the claimed equivalence
fails for such a file. -/
theorem c5_write_failure_breaks_iff :
    wfailFile.content = some onceContent
    ∧ applyMappings onceContent ≠ onceContent
    ∧ (processFile demoBase wfailFile).updated = false :=
  ⟨rfl, by decide, by decide⟩

/-- C5 (amended): for every successfully read file whose write, when
attempted, succeeds, the file is counted updated exactly when the
content after all mappings differs from the original, and exactly then
one write completes (none otherwise); when the write raises instead,
the file is counted not updated and no write completes. -/
theorem c5_update_iff_changed (base : Str) (f : SrcFile) (c : Str)
    (hc : f.content = some c) :
    (f.writeOk = true →
      (((processFile base f).updated = true) ↔ applyMappings c ≠ c)
      ∧ (processFile base f).writes
          = (if applyMappings c ≠ c then 1 else 0))
    ∧ (f.writeOk = false →
      (processFile base f).updated = false
      ∧ (processFile base f).writes = 0) := by
  constructor
  · intro hw
    by_cases hne : applyMappings c ≠ c
    · exact ⟨by simp [processFile, hc, hne, hw],
        by simp [processFile, hc, hne, hw]⟩
    · exact ⟨by simp [processFile, hc, hne],
        by simp [processFile, hc, hne]⟩
  · intro hw
    by_cases hne : applyMappings c ≠ c
    · exact ⟨by simp [processFile, hc, hne, hw],
        by simp [processFile, hc, hne, hw]⟩
    · exact ⟨by simp [processFile, hc, hne],
        by simp [processFile, hc, hne]⟩

theorem c5_update_iff_changed_witness :
    goodFile.content = some ("\"#252526\"".data)
    ∧ goodFile.writeOk = true
    ∧ ((((processFile demoBase goodFile).updated = true) ↔
          applyMappings ("\"#252526\"".data) ≠ "\"#252526\"".data)
      ∧ (processFile demoBase goodFile).writes
          = (if applyMappings ("\"#252526\"".data) ≠ "\"#252526\"".data
              then 1 else 0)) :=
  ⟨rfl, rfl,
    (c5_update_iff_changed demoBase goodFile ("\"#252526\"".data) rfl).1 rfl⟩

/-- C6: a per-file I/O or decoding failure (read raises, or the content
changed and the write raises) is caught at the per-file boundary: the
diagnostic line is printed, the file is not counted updated, it is
still counted processed (the counter is bumped before the read), and
the traversal continues through the surrounding files. -/
theorem c6_per_file_error_recovered (base : Str) (f : SrcFile)
    (h : ioFails f) :
    ∀ (pre post : List SrcFile) (s : RunState),
      (processFile base f).updated = false
      ∧ (processFile base f).printed = [errLine base f]
      ∧ (runFiles base (pre ++ f :: post) s).processed
          = s.processed + pre.length + 1 + post.length
      ∧ (runFiles base (pre ++ f :: post) s).updated
          = (runFiles base (pre ++ post) s).updated
      ∧ errLine base f ∈ (runFiles base (pre ++ f :: post) s).output := by
  intro pre post s
  have hp := processFile_fail base h
  refine ⟨by rw [hp], by rw [hp], ?_, ?_, ?_⟩
  · rw [runFiles_processed, List.length_append, List.length_cons]
    omega
  · rw [runFiles_updated, runFiles_updated, updCount_append, updCount_append,
      updCount_cons, hp]
    simp
  · rw [runFiles_output, emitted_append]
    have hf : errLine base f ∈ fileLines base f := by
      rw [fileLines, hp]
      simp
    have hmem : errLine base f ∈ emitted base (f :: post) := by
      rw [emitted]
      exact List.mem_append_left _ hf
    simp [hmem]

theorem c6_per_file_error_recovered_witness :
    ioFails readFailFile
    ∧ ((processFile demoBase readFailFile).updated = false
      ∧ (processFile demoBase readFailFile).printed
          = [errLine demoBase readFailFile]
      ∧ (runFiles demoBase ([] ++ readFailFile :: [goodFile]) initState).processed
          = initState.processed + List.length ([] : List SrcFile) + 1
            + List.length [goodFile]
      ∧ (runFiles demoBase ([] ++ readFailFile :: [goodFile]) initState).updated
          = (runFiles demoBase ([] ++ [goodFile]) initState).updated
      ∧ errLine demoBase readFailFile
          ∈ (runFiles demoBase ([] ++ readFailFile :: [goodFile]) initState).output) :=
  ⟨Or.inl rfl,
    c6_per_file_error_recovered demoBase readFailFile (Or.inl rfl)
      [] [goodFile] initState⟩

/-- C7: when the root directory does not exist the whole transcript is
the single diagnostic line, and neither the completion marker nor
either counter line is ever printed. -/
theorem c7_missing_root_aborts (base : Str) (tree : List SrcFile) (n : Nat) :
    mainRun false base tree = [dirErrLine base]
    ∧ doneLine ∉ mainRun false base tree
    ∧ processedLine n ∉ mainRun false base tree
    ∧ updatedCountLine n ∉ mainRun false base tree := by
  have h1 : mainRun false base tree = [dirErrLine base] := rfl
  refine ⟨h1, ?_, ?_, ?_⟩ <;> rw [h1] <;> simp only [List.mem_singleton]
  · intro he
    have h2 := congrArg (List.take 1) he
    rw [dirErrLine, take1_append base (by decide)] at h2
    revert h2
    decide
  · intro he
    have h2 := congrArg (List.take 1) he
    rw [dirErrLine, processedLine, take1_append base (by decide),
      take1_append ((Nat.repr n).data) (by decide)] at h2
    revert h2
    decide
  · intro he
    have h2 := congrArg (List.take 1) he
    rw [dirErrLine, updatedCountLine, take1_append base (by decide),
      take1_append ((Nat.repr n).data) (by decide)] at h2
    revert h2
    decide

/-- C8: the update counter never exceeds the processed counter (the
inequality is preserved by every step of the run, so it holds at every
point), and at the end of a run the update counter equals the number of
`Updated:` lines of the transcript; when the relative paths of the
candidate files are pairwise distinct — as for a filesystem listing —
those lines are pairwise distinct as well. -/
theorem c8_counter_correctness (base : Str) :
    (∀ (fs : List SrcFile) (s : RunState), s.updated ≤ s.processed →
        (runFiles base fs s).updated ≤ (runFiles base fs s).processed)
    ∧ (∀ tree : List SrcFile,
        (((tsxPass tree ++ tsPass tree).map relPath).Nodup) →
          ((mainRun true base tree).filter isUpdLine).length
              = (finalState base tree).updated
          ∧ ((mainRun true base tree).filter isUpdLine).Nodup) := by
  constructor
  · intro fs
    induction fs with
    | nil => intro s h; simpa [runFiles] using h
    | cons f fs ih =>
      intro s h
      rw [runFiles_cons]
      apply ih
      rw [stepFile_updated, stepFile_processed]
      by_cases hu : (processFile base f).updated <;> simp [hu] <;> omega
  · intro tree hnd
    have hout : mainRun true base tree
        = (finalState base tree).output
          ++ [doneLine, processedLine (finalState base tree).processed,
              updatedCountLine (finalState base tree).updated] := rfl
    have hfo : (finalState base tree).output
        = emitted base (tsxPass tree ++ tsPass tree) := by
      rw [finalState, runFiles_output, runFiles_output, emitted_append]
      simp [initState]
    have hfilter : (mainRun true base tree).filter isUpdLine
        = ((tsxPass tree ++ tsPass tree).filter
            (fun f => (processFile base f).updated)).map updLine := by
      rw [hout, List.filter_append, hfo, filter_emitted]
      simp [isUpdLine_doneLine, isUpdLine_processedLine,
        isUpdLine_updatedCountLine]
    constructor
    · rw [hfilter, List.length_map]
      show updCount base (tsxPass tree ++ tsPass tree) = _
      rw [updCount_append, finalState, runFiles_updated, runFiles_updated]
      simp [initState]
    · rw [hfilter]
      have hsub : (((tsxPass tree ++ tsPass tree).filter
          (fun f => (processFile base f).updated)).map relPath).Nodup := by
        refine List.Nodup.sublist ?_ hnd
        exact (List.filter_sublist _).map relPath
      have hmap : ((tsxPass tree ++ tsPass tree).filter
          (fun f => (processFile base f).updated)).map updLine
          = (((tsxPass tree ++ tsPass tree).filter
              (fun f => (processFile base f).updated)).map relPath).map
              (fun p => "Updated: ".data ++ p) := by
        rw [List.map_map]
        rfl
      rw [hmap]
      refine List.Nodup.map ?_ hsub
      intro p1 p2 hp
      exact (List.append_right_inj _).mp hp

theorem c8_counter_correctness_witness :
    (initState.updated ≤ initState.processed)
    ∧ ((runFiles demoBase mixedTree initState).updated
        ≤ (runFiles demoBase mixedTree initState).processed)
    ∧ (((tsxPass mixedTree ++ tsPass mixedTree).map relPath).Nodup)
    ∧ ((mainRun true demoBase mixedTree).filter isUpdLine).length
        = (finalState demoBase mixedTree).updated
    ∧ ((mainRun true demoBase mixedTree).filter isUpdLine).Nodup :=
  ⟨by decide,
    (c8_counter_correctness demoBase).1 mixedTree initState (by decide),
    by decide,
    ((c8_counter_correctness demoBase).2 mixedTree (by decide)).1,
    ((c8_counter_correctness demoBase).2 mixedTree (by decide)).2⟩

/-- C9: a quoted span (on one line, its interior free of further
quotes, newlines and hash signs) holding two occurrences of the
`#1e1e1e` literal: a full run of the mapping table replaces only the
first occurrence — the match's third group consumes the span through
its closing quote, so the second occurrence survives the run
unchanged. -/
theorem c9_second_occurrence_survives (u v w : Str) (q1 q2 : Char)
    (hu : plainChunk u = true) (hv : plainChunk v = true)
    (hw : plainChunk w = true)
    (hq1 : isQuote q1 = true) (hq2 : isQuote q2 = true) :
    applyMappings (q1 :: (u ++ ("#1e1e1e".data ++
        (v ++ ("#1e1e1e".data ++ (w ++ [q2]))))))
      = q1 :: (u ++ ("var(--color-bg-primary)".data ++
        (v ++ ("#1e1e1e".data ++ (w ++ [q2]))))) := by
  unfold applyMappings COLOR_MAPPINGS
  rw [List.foldl_cons]
  have hstep : subPass
      (("#1e1e1e".data, "var(--color-bg-primary)".data) : Str × Str).1
      (("#1e1e1e".data, "var(--color-bg-primary)".data) : Str × Str).2
      (q1 :: (u ++ ("#1e1e1e".data ++ (v ++ ("#1e1e1e".data ++ (w ++ [q2]))))))
      = q1 :: (u ++ ("var(--color-bg-primary)".data ++
          (v ++ ("#1e1e1e".data ++ (w ++ [q2]))))) :=
    subPass_span ("var(--color-bg-primary)".data) hu hv hw hq1 hq2
  rw [hstep]
  apply foldl_subPass_id
  intro m hm
  have htokall : (("var(--color-bg-primary)".data).all
      fun c => !(c == '#')) = true := by decide
  simp only [List.mem_cons, List.not_mem_nil, or_false] at hm
  rcases hm with h | h | h | h | h | h | h | h | h | h | h | h <;> subst h <;>
    exact occursCI_other (by decide) _ htokall hu hv hw hq1 hq2

theorem c9_second_occurrence_survives_witness :
    plainChunk spanChunkU = true ∧ plainChunk spanChunkV = true
    ∧ plainChunk spanChunkW = true ∧ isQuote '"' = true
    ∧ applyMappings ('"' :: (spanChunkU ++ ("#1e1e1e".data ++
        (spanChunkV ++ ("#1e1e1e".data ++ (spanChunkW ++ ['"']))))))
      = '"' :: (spanChunkU ++ ("var(--color-bg-primary)".data ++
        (spanChunkV ++ ("#1e1e1e".data ++ (spanChunkW ++ ['"']))))) :=
  ⟨by decide, by decide, by decide, by decide,
    c9_second_occurrence_survives spanChunkU spanChunkV spanChunkW
      '"' '"' (by decide) (by decide) (by decide) (by decide) (by decide)⟩

lemma getLast_of_drop_eq {l s : Str} {n : Nat} (h : l.drop n = s)
    (hs : s ≠ []) : l.getLast? = s.getLast? := by
  conv_lhs => rw [← List.take_append_drop n l]
  rw [List.getLast?_append_of_ne_nil _ (by rw [h]; exact hs), h]

lemma globTail_not_both (name : Str) :
    ¬(globTail (".tsx".data) name = true ∧ globTail (".ts".data) name = true) := by
  intro ⟨h1, h2⟩
  have e1 : name.drop (name.length - (".tsx".data).length) = ".tsx".data := by
    simpa [globTail] using h1
  have e2 : name.drop (name.length - (".ts".data).length) = ".ts".data := by
    simpa [globTail] using h2
  have g1 := getLast_of_drop_eq e1 (by decide)
  have g2 := getLast_of_drop_eq e2 (by decide)
  rw [g1] at g2
  revert g2
  decide

/-- C10: no filename matches both glob patterns (`*.tsx` requires the
name to end in `.tsx`, `*.ts` in `.ts`, and the last characters
differ), so for a duplicate-free directory listing every file occurs at
most once among the candidates of the two passes, and the processed
counter is exactly the number of candidates of the first pass plus
those of the second. -/
theorem c10_passes_disjoint :
    (∀ name : Str, ¬(globTail (".tsx".data) name = true
        ∧ globTail (".ts".data) name = true))
    ∧ (∀ (tree : List SrcFile) (f : SrcFile), tree.Nodup →
        (tsxPass tree ++ tsPass tree).count f ≤ 1)
    ∧ (∀ (base : Str) (tree : List SrcFile),
        (finalState base tree).processed
          = (tsxPass tree).length + (tsPass tree).length) := by
  refine ⟨globTail_not_both, ?_, ?_⟩
  · intro tree f hnd
    rw [List.count_append]
    have hb1 : (tsxPass tree).count f ≤ tree.count f :=
      List.Sublist.count_le
        ((List.filter_sublist _).trans (List.filter_sublist _)) f
    have hb2 : (tsPass tree).count f ≤ tree.count f :=
      List.Sublist.count_le
        ((List.filter_sublist _).trans (List.filter_sublist _)) f
    have hb3 : tree.count f ≤ 1 := List.nodup_iff_count_le_one.mp hnd f
    by_cases h1 : f ∈ tsxPass tree
    · have h2 : f ∉ tsPass tree := by
        intro h2
        have g1 : globTail (".tsx".data) f.fname = true := by
          simpa using List.of_mem_filter (List.mem_of_mem_filter h1)
        have g2 : globTail (".ts".data) f.fname = true := by
          simpa using List.of_mem_filter (List.mem_of_mem_filter h2)
        exact globTail_not_both f.fname ⟨g1, g2⟩
      rw [List.count_eq_zero.mpr h2]
      omega
    · rw [List.count_eq_zero.mpr h1]
      omega
  · intro base tree
    rw [finalState, runFiles_processed, runFiles_processed]
    simp [initState]

theorem c10_passes_disjoint_witness :
    mixedTree.Nodup
    ∧ (tsxPass mixedTree ++ tsPass mixedTree).count goodFile ≤ 1 :=
  ⟨by decide, c10_passes_disjoint.2.1 mixedTree goodFile (by decide)⟩

end UpdateColorTokens
